import Mathlib

/-!
Verification of the FGD parser in src/blender_bfg/entity_properties.py.

The parser is embedded shallowly: the immutable input is a list of
characters, the mutable cursor (self.position) is threaded explicitly as a
natural number, and diagnostics (print calls) are collected in a list.
Python string indexing content[pos] raises IndexError when pos is out of
range; this is modelled with an Except monad carrying PErr.indexError.
The while loops of the document driver, the parameter loop, the attribute
block loop and the choices loop are modelled with an explicit step budget
(fuel); exhausting it yields PErr.fuelOut, and a theorem below shows that
with the budget used by the top level entry point this never happens, which
is the termination argument for the source loops.  The character scanning
loops (parse_parentheses, parse_string, parse_model_parameter) recurse
structurally on the remaining input.

The json.loads call used for the model parameter is an external library
call, so the embedding is parametrised by an arbitrary decoder
jd : String -> Option JValue; decode failure (JSONDecodeError) corresponds
to jd returning none.
-/

namespace BFG

/-- The result of the json.loads call on a model parameter: an arbitrary
JSON-like value.  Only the object and string constructors are needed by the
fallback path of the source; the others make the type an honest JSON
universe for the decoder parameter. -/
inductive JValue where
  | str : String → JValue
  | num : String → JValue
  | jbool : Bool → JValue
  | jnull : JValue
  | arr : List JValue → JValue
  | obj : List (String × JValue) → JValue

/-- Python exceptions that can escape the parser in the model: IndexError
from out of range string indexing.  fuelOut is an artefact of the fuelled
loop encoding and is proved unreachable. -/
inductive PErr where
  | indexError : PErr
  | fuelOut : PErr
deriving DecidableEq

/-- One warning printed by the parser (the print calls in
parse_parentheses, parse_string and parse_attribute), with the 50
character snippet the source interpolates. -/
inductive Diag where
  | parenWarning : String → Diag
  | stringWarning : String → Diag
  | attrTypeWarning : String → Diag

/-- dataclass Choice (entity_properties.py lines 17-20). -/
structure Choice where
  value : String
  description : String

/-- dataclass Attribute (lines 23-29). -/
structure Attribute where
  name : String
  type : String
  description : String
  default : Option String
  choices : Option (List Choice)

/-- dataclass EntityClass (lines 32-41). -/
structure EntityClass where
  class_type : String
  base : Option String
  color : Option String
  size : Option String
  model : Option JValue
  classname : String
  description : String
  attributes : List Attribute

end BFG

namespace BFG

/-- Model of Python str.isspace for the ASCII whitespace characters. -/
def pyIsSpace (c : Char) : Bool :=
  c = ' ' || c = '\t' || c = '\n' || c = '\r' || c = '\x0b' || c = '\x0c'

/-- Model of Python str.isdigit (ASCII digits). -/
def pyIsDigit (c : Char) : Bool :=
  c.isDigit

/-- Model of Python str.isalnum (ASCII letters and digits). -/
def pyIsAlnum (c : Char) : Bool :=
  c.isAlphanum

/-- Python content[pos]: returns the character or raises IndexError. -/
def charAt (content : List Char) (pos : Nat) : Except PErr Char :=
  match content[pos]? with
  | some c => Except.ok c
  | none => Except.error PErr.indexError

/-- Python content[pos:].startswith(pre). -/
def pyStartsWith (content : List Char) (pos : Nat) (pre : List Char) : Bool :=
  pre.isPrefixOf (content.drop pos)

/-- Python slice content[a:b] (with 0 <= a <= b in all the uses below). -/
def extract (content : List Char) (a b : Nat) : List Char :=
  (content.drop a).take (b - a)

/-- Python str.strip(): remove leading and trailing whitespace. -/
def pyStrip (l : List Char) : List Char :=
  ((l.dropWhile pyIsSpace).reverse.dropWhile pyIsSpace).reverse

/-- Python str.lower(), per character (ASCII). -/
def pyLower (s : String) : String :=
  String.mk (s.data.map Char.toLower)

/-- Python model_str.replace(single quote, double quote) in
parse_entity line 110: a one character substitution. -/
def pyReplaceQuotes (s : String) : String :=
  String.mk (s.data.map (fun c => if c = '\'' then '"' else c))

/-- The 50 character snippet content[start : start + 50] used in the
warning messages. -/
def snippet (content : List Char) (start : Nat) : String :=
  String.mk ((content.drop start).take 50)

/-- consume_whitespace (lines 77-79): advance past a maximal run of
whitespace. -/
def consume_whitespace (content : List Char) (pos : Nat) : Nat :=
  pos + ((content.drop pos).takeWhile pyIsSpace).length

/-- skip_line (lines 72-75): advance to just past the next newline; the
final increment happens even at end of input. -/
def skip_line (content : List Char) (pos : Nat) : Nat :=
  pos + ((content.drop pos).takeWhile (fun c => c ≠ '\n')).length + 1

/-- skip_to_next_line (lines 376-380): identical loop to skip_line. -/
def skip_to_next_line (content : List Char) (pos : Nat) : Nat :=
  pos + ((content.drop pos).takeWhile (fun c => c ≠ '\n')).length + 1

/-- parse_identifier (lines 262-274): skip whitespace, then consume a
maximal run of alphanumerics, underscore and dot. -/
def parse_identifier (content : List Char) (pos : Nat) : String × Nat :=
  let p := consume_whitespace content pos
  let tk := (content.drop p).takeWhile (fun c => pyIsAlnum c || c = '_' || c = '.')
  (String.mk tk, p + tk.length)

/-- parse_number (lines 254-260): consume a maximal run of digits, dot and
minus (no leading whitespace skip in the source). -/
def parse_number (content : List Char) (pos : Nat) : String × Nat :=
  let tk := (content.drop pos).takeWhile (fun c => pyIsDigit c || c = '.' || c = '-')
  (String.mk tk, pos + tk.length)

/-- The scanning loop of parse_parentheses (lines 289-300): steps while
characters remain, the open parenthesis count is positive and fewer than
1000 iterations have run.  Returns (number of characters consumed, final
parenthesis count). -/
def parenScan : List Char → Nat → Nat → Nat × Nat
  | [], cnt, _ => (0, cnt)
  | c :: rest, cnt, iter =>
    if 0 < cnt ∧ iter < 1000 then
      let cnt2 := if c = '(' then cnt + 1 else if c = ')' then cnt - 1 else cnt
      let r := parenScan rest cnt2 (iter + 1)
      (r.1 + 1, r.2)
    else (0, cnt)

/-- parse_parentheses (lines 276-308). -/
def parse_parentheses (content : List Char) (pos : Nat) (diags : List Diag) :
    Option String × Nat × List Diag :=
  let p := consume_whitespace content pos
  if content.length ≤ p ∨ content[p]? ≠ some '(' then (none, p, diags)
  else
    let sc := parenScan (content.drop (p + 1)) 1 0
    let p2 := p + 1 + sc.1
    if 0 < sc.2 ∨ 1000 ≤ sc.1 then
      (none, p2, diags ++ [Diag.parenWarning (snippet content (p + 1))])
    else
      (some (String.mk (pyStrip (extract content (p + 1) (p2 - 1)))), p2, diags)

/-- The scanning loop of parse_string (lines 322-328): steps while
characters remain, the current character is not a double quote and fewer
than 1000 iterations have run.  Returns the number of characters
consumed. -/
def stringScan : List Char → Nat → Nat
  | [], _ => 0
  | c :: rest, iter =>
    if c ≠ '"' ∧ iter < 1000 then stringScan rest (iter + 1) + 1 else 0

/-- parse_string (lines 310-338).  Note that when the scan stops at end of
input in fewer than 1000 iterations, the source returns the remaining text
(trimmed) and still advances the cursor past a closing quote that is not
there; only the 1000 iteration cap produces the empty result and the
warning. -/
def parse_string (content : List Char) (pos : Nat) (diags : List Diag) :
    String × Nat × List Diag :=
  let p := consume_whitespace content pos
  if content.length ≤ p ∨ content[p]? ≠ some '"' then ("", p, diags)
  else
    let steps := stringScan (content.drop (p + 1)) 0
    let p2 := p + 1 + steps
    if 1000 ≤ steps then
      ("", p2, diags ++ [Diag.stringWarning (snippet content (p + 1))])
    else
      (String.mk (pyStrip (extract content (p + 1) p2)), p2 + 1, diags)

/-- The scanning loop of parse_model_parameter (lines 356-370):
parenthesis counting is suspended inside braces; the loop breaks on the
closing parenthesis (without consuming it) or stops at end of input.
Returns the number of characters consumed.  The brace count may go
negative in the source, hence Int. -/
def modelScan : List Char → Int → Nat → Nat
  | [], _, _ => 0
  | c :: rest, brace, paren =>
    if c = '{' then modelScan rest (brace + 1) paren + 1
    else if c = '}' then modelScan rest (brace - 1) paren + 1
    else if c = '(' ∧ brace = 0 then modelScan rest brace (paren + 1) + 1
    else if c = ')' ∧ brace = 0 then
      if paren = 1 then 0
      else modelScan rest brace (paren - 1) + 1
    else modelScan rest brace paren + 1

/-- parse_model_parameter (lines 340-374). -/
def parse_model_parameter (content : List Char) (pos : Nat) : String × Nat :=
  let p := consume_whitespace content pos
  if content.length ≤ p then ("", p)
  else if content[p]? ≠ some '(' then ("", p)
  else
    let steps := modelScan (content.drop (p + 1)) 0 1
    let p2 := p + 1 + steps
    (String.mk (pyStrip (extract content (p + 1) p2)), p2 + 1)

/-- Address of the Attribute object held by self.last_attribute: either
attribute a of the already accumulated entity e, or attribute a of the
attribute list of the entity currently being parsed.  This encodes the
Python object reference: mutating through it updates the attribute where
it lives. -/
inductive LastRef where
  | inEnts : Nat → Nat → LastRef
  | inCur : Nat → LastRef

/-- The parser state: cursor, the accumulated entity list of parse(), the
local attribute list of the parse_entity call in progress, the
self.last_attribute reference (line 49) and the collected warnings. -/
structure PSt where
  pos : Nat
  entities : List EntityClass
  curAttrs : List Attribute
  last_attribute : Option LastRef
  diags : List Diag

/-- Replace the element at index i (no-op when out of range). -/
def modifyIdx : List α → Nat → (α → α) → List α
  | [], _, _ => []
  | x :: xs, 0, f => f x :: xs
  | x :: xs, n + 1, f => x :: modifyIdx xs n f

/-- self.last_attribute.choices = choices (lines 208-209): mutate the
referenced Attribute object in place. -/
def attachChoices (cs : List Choice) (st : PSt) : PSt :=
  match st.last_attribute with
  | none => st
  | some (LastRef.inCur i) =>
    { st with curAttrs := modifyIdx st.curAttrs i (fun a => { a with choices := some cs }) }
  | some (LastRef.inEnts e i) =>
    { st with entities := modifyIdx st.entities e (fun ent =>
        { ent with attributes := modifyIdx ent.attributes i (fun a => { a with choices := some cs }) }) }

/-- The entry loop of parse_choices (lines 395-437).  Each iteration
consumes at least one character, so fuel equal to the input length never
runs out (proved below). -/
def parse_choices_loop (content : List Char) (fuel pos : Nat) (acc : List Choice)
    (diags : List Diag) : Except PErr (List Choice × Nat × List Diag) :=
  if content.length ≤ pos then Except.ok (acc, pos, diags)
  else
    match fuel with
    | 0 => Except.error PErr.fuelOut
    | fuel + 1 =>
      let p1 := consume_whitespace content pos
      match content[p1]? with
      | none => Except.error PErr.indexError
      | some c =>
        if c = ']' then Except.ok (acc, p1 + 1, diags)
        else if pyStartsWith content p1 ['/', '/'] then
          parse_choices_loop content fuel (skip_line content p1) acc diags
        else
          let v := (content.drop p1).takeWhile (fun ch => pyIsDigit ch || ch = '-')
          let p2 := p1 + v.length
          if v = [] then
            parse_choices_loop content fuel (skip_to_next_line content p2) acc diags
          else
            let p3 := consume_whitespace content p2
            match content[p3]? with
            | none => Except.error PErr.indexError
            | some c2 =>
              if c2 = ':' then
                let p4 := consume_whitespace content (p3 + 1)
                match content[p4]? with
                | none => Except.error PErr.indexError
                | some c3 =>
                  if c3 = '"' then
                    let r := parse_string content p4 diags
                    parse_choices_loop content fuel r.2.1
                      (acc ++ [{ value := String.mk (pyStrip v), description := r.1 }]) r.2.2
                  else
                    parse_choices_loop content fuel (skip_to_next_line content p4) acc diags
              else
                parse_choices_loop content fuel (skip_to_next_line content p3) acc diags

/-- parse_choices (lines 382-393): entered with the cursor on the equals
sign; skip it, look for the opening bracket (an out of range index raises),
then run the entry loop. -/
def parse_choices (content : List Char) (pos : Nat) (diags : List Diag) :
    Except PErr (List Choice × Nat × List Diag) :=
  let p1 := consume_whitespace content (pos + 1)
  match content[p1]? with
  | none => Except.error PErr.indexError
  | some c =>
    if c ≠ '[' then Except.ok ([], p1, diags)
    else parse_choices_loop content (content.length + 1) (p1 + 1) [] diags

/-- First character of a nonempty attribute name (Python name[0], line
216; only called with a nonempty name). -/
def nameHead (s : String) : Char :=
  match s.data with
  | [] => ' '
  | c :: _ => c

/-- Lines 244-252: build the Attribute record and store it as
self.last_attribute.  The reference points at the slot where the caller
(the attribute block loop, line 164) appends it. -/
def finishAttr (name attr_type desc : String) (dflt : Option String) (pos : Nat)
    (diags : List Diag) (st : PSt) : Except PErr (Option Attribute × PSt) :=
  let a : Attribute :=
    { name := name, type := attr_type, description := desc, default := dflt, choices := none }
  Except.ok (some a,
    { st with pos := pos, diags := diags,
              last_attribute := some (LastRef.inCur st.curAttrs.length) })

/-- Lines 212-252 of parse_attribute: the part after the name has been
read (type in parentheses, optional description and default). -/
def parse_attribute_tail (content : List Char) (start_pos : Nat) (name : String)
    (st : PSt) : Except PErr (Option Attribute × PSt) :=
  match parse_parentheses content st.pos st.diags with
  | (none, p4, d4) =>
    let d5 :=
      if pyIsDigit (nameHead name) then d4
      else d4 ++ [Diag.attrTypeWarning (snippet content start_pos)]
    Except.ok (none, { st with pos := p4, diags := d5 })
  | (some attr_type, p4, d4) =>
    let p5 := consume_whitespace content p4
    if p5 < content.length ∧ content[p5]? = some ':' then
      let p6 := consume_whitespace content (p5 + 1)
      let r := parse_string content p6 d4
      let p8 := consume_whitespace content r.2.1
      if p8 < content.length ∧ content[p8]? = some ':' then
        let p9 := consume_whitespace content (p8 + 1)
        match content[p9]? with
        | none => Except.error PErr.indexError
        | some c3 =>
          if c3 = '"' then
            let rd := parse_string content p9 r.2.2
            finishAttr name attr_type r.1 (some rd.1) rd.2.1 rd.2.2 st
          else if pyIsDigit c3 || c3 = '-' then
            let rn := parse_number content p9
            finishAttr name attr_type r.1 (some rn.1) rn.2 r.2.2 st
          else
            finishAttr name attr_type r.1 none p9 r.2.2 st
      else
        finishAttr name attr_type r.1 none p8 r.2.2 st
    else
      finishAttr name attr_type "" none p5 d4 st

/-- parse_attribute (lines 183-252). -/
def parse_attribute (content : List Char) (st : PSt) :
    Except PErr (Option Attribute × PSt) :=
  let start_pos := st.pos
  let p1 := consume_whitespace content st.pos
  if content.length ≤ p1 then Except.ok (none, { st with pos := p1 })
  else
    match content[p1]? with
    | none => Except.error PErr.indexError
    | some c =>
      if pyIsDigit c then Except.ok (none, { st with pos := skip_to_next_line content p1 })
      else
        let r := parse_identifier content p1
        if r.1 = "" then Except.ok (none, { st with pos := r.2 })
        else
          let p3 := consume_whitespace content r.2
          if r.1 = "choices" then
            match content[p3]? with
            | none => Except.error PErr.indexError
            | some c2 =>
              if c2 = '=' then
                match parse_choices content p3 st.diags with
                | Except.error e => Except.error e
                | Except.ok (cs, p4, d4) =>
                  Except.ok (none, attachChoices cs { st with pos := p4, diags := d4 })
              else
                parse_attribute_tail content start_pos r.1 { st with pos := p3 }
          else
            parse_attribute_tail content start_pos r.1 { st with pos := p3 }

/-- The parameter state local to parse_entity (lines 89-92) together with
the cursor and the diagnostics. -/
structure ParamSt where
  pos : Nat
  color : Option String
  size : Option String
  base : Option String
  model : Option JValue
  diags : List Diag

/-- The parameter loop of parse_entity (lines 95-124), parametrised by the
json decoder jd.  Keyword prefixes are tested in source order; decode
failure of the model parameter falls back to the single field path
object. -/
def param_loop (jd : String → Option JValue) (content : List Char) (fuel : Nat)
    (ps : ParamSt) : Except PErr ParamSt :=
  if content.length ≤ ps.pos then Except.ok ps
  else if content[ps.pos]? = some '=' then Except.ok ps
  else
    match fuel with
    | 0 => Except.error PErr.fuelOut
    | fuel + 1 =>
      if pyStartsWith content ps.pos ['c', 'o', 'l', 'o', 'r'] then
        let r := parse_parentheses content (ps.pos + 5) ps.diags
        param_loop jd content fuel { ps with pos := r.2.1, color := r.1, diags := r.2.2 }
      else if pyStartsWith content ps.pos ['s', 'i', 'z', 'e'] then
        let r := parse_parentheses content (ps.pos + 4) ps.diags
        param_loop jd content fuel { ps with pos := r.2.1, size := r.1, diags := r.2.2 }
      else if pyStartsWith content ps.pos ['b', 'a', 's', 'e'] then
        let r := parse_parentheses content (ps.pos + 4) ps.diags
        param_loop jd content fuel { ps with pos := r.2.1, base := r.1, diags := r.2.2 }
      else if pyStartsWith content ps.pos ['m', 'o', 'd', 'e', 'l'] then
        let r := parse_model_parameter content (ps.pos + 5)
        let m := match jd (pyReplaceQuotes r.1) with
          | some j => some j
          | none => some (JValue.obj [("path", JValue.str r.1)])
        param_loop jd content fuel { ps with pos := r.2, model := m }
      else
        let n := ((content.drop ps.pos).takeWhile (fun c => !pyIsSpace c && !(c = '='))).length
        param_loop jd content fuel { ps with pos := consume_whitespace content (ps.pos + n) }

/-- The attribute block loop of parse_entity (lines 147-167): parsed
attributes are appended in order; a none result skips to the next line to
guarantee progress. -/
def attr_loop (content : List Char) (fuel : Nat) (st : PSt) : Except PErr PSt :=
  if content.length ≤ st.pos then Except.ok st
  else
    match fuel with
    | 0 => Except.error PErr.fuelOut
    | fuel + 1 =>
      let p1 := consume_whitespace content st.pos
      if content.length ≤ p1 then Except.ok { st with pos := p1 }
      else if content[p1]? = some ']' then Except.ok { st with pos := p1 }
      else if content[p1]? = some '\n' then attr_loop content fuel { st with pos := p1 + 1 }
      else if pyStartsWith content p1 ['/', '/'] then
        attr_loop content fuel { st with pos := skip_line content p1 }
      else
        match parse_attribute content { st with pos := p1 } with
        | Except.error e => Except.error e
        | Except.ok (some a, st2) =>
          attr_loop content fuel { st2 with curAttrs := st2.curAttrs ++ [a] }
        | Except.ok (none, st2) =>
          attr_loop content fuel { st2 with pos := skip_to_next_line content st2.pos }

/-- parse_entity (lines 81-181).  The check for the description colon at
line 135 indexes the input without a bound check, so a truncated entity
raises IndexError.  On completion the entity is appended (line 66 always
appends since the method always returns a record) and a last_attribute
reference into the local attribute list is re-addressed to the appended
entity. -/
def parse_entity (jd : String → Option JValue) (content : List Char) (st : PSt) :
    Except PErr PSt :=
  let r0 := parse_identifier content (st.pos + 1)
  let class_type := pyLower r0.1
  let p2 := consume_whitespace content r0.2
  match param_loop jd content (content.length + 1)
      { pos := p2, color := none, size := none, base := none, model := none, diags := st.diags } with
  | Except.error e => Except.error e
  | Except.ok ps =>
    let p3 := consume_whitespace content (ps.pos + 1)
    let r1 := parse_identifier content p3
    let p5 := consume_whitespace content r1.2
    match content[p5]? with
    | none => Except.error PErr.indexError
    | some c =>
      let rd :=
        if c = ':' then parse_string content (consume_whitespace content (p5 + 1)) ps.diags
        else ("", p5, ps.diags)
      let p7 := consume_whitespace content rd.2.1
      let st1 : PSt := { st with pos := p7, curAttrs := [], diags := rd.2.2 }
      let afterAttrs : Except PErr PSt :=
        if p7 < content.length ∧ content[p7]? = some '[' then
          match attr_loop content (content.length + 1) { st1 with pos := p7 + 1 } with
          | Except.error e => Except.error e
          | Except.ok st2 =>
            if st2.pos < content.length ∧ content[st2.pos]? = some ']' then
              Except.ok { st2 with pos := st2.pos + 1 }
            else Except.ok st2
        else Except.ok st1
      match afterAttrs with
      | Except.error e => Except.error e
      | Except.ok st3 =>
        let ent : EntityClass :=
          { class_type := class_type, base := ps.base, color := ps.color, size := ps.size,
            model := ps.model, classname := r1.1, description := rd.1,
            attributes := st3.curAttrs }
        let last2 := match st3.last_attribute with
          | some (LastRef.inCur i) => some (LastRef.inEnts st3.entities.length i)
          | x => x
        Except.ok { pos := st3.pos, entities := st3.entities ++ [ent], curAttrs := [],
                    last_attribute := last2, diags := st3.diags }

/-- The document driver loop of parse (lines 51-70). -/
def parse_loop (jd : String → Option JValue) (content : List Char) (fuel : Nat)
    (st : PSt) : Except PErr PSt :=
  if content.length ≤ st.pos then Except.ok st
  else
    match fuel with
    | 0 => Except.error PErr.fuelOut
    | fuel + 1 =>
      let p1 := consume_whitespace content st.pos
      if content.length ≤ p1 then Except.ok { st with pos := p1 }
      else if pyStartsWith content p1 ['/', '/'] then
        parse_loop jd content fuel { st with pos := skip_line content p1 }
      else if content[p1]? = some '@' then
        match parse_entity jd content { st with pos := p1 } with
        | Except.error e => Except.error e
        | Except.ok st2 => parse_loop jd content fuel st2
      else
        parse_loop jd content fuel { st with pos := p1 + 1 }

/-- Initial state of a freshly constructed FGDParser (lines 45-49). -/
def initSt : PSt :=
  { pos := 0, entities := [], curAttrs := [], last_attribute := none, diags := [] }

/-- FGDParser(content).parse() on a character list: the ordered entity
sequence plus the diagnostics, or the Python exception. -/
def parseWith (jd : String → Option JValue) (content : List Char) :
    Except PErr (List EntityClass × List Diag) :=
  match parse_loop jd content (content.length + 1) initSt with
  | Except.ok st => Except.ok (st.entities, st.diags)
  | Except.error e => Except.error e

/-- FGDParser(content).parse() on a string. -/
def parse (jd : String → Option JValue) (s : String) :
    Except PErr (List EntityClass × List Diag) :=
  parseWith jd s.data

/-! Cursor monotonicity of the scanner primitives: no primitive ever moves
the cursor backwards, and several always make strict progress.  These feed
the termination argument for the fuelled loops. -/

theorem drop_eq_cons {α : Type} {l : List α} {n : Nat} {c : α} (h : l[n]? = some c) :
    l.drop n = c :: l.drop (n + 1) := by
  induction l generalizing n with
  | nil => simp at h
  | cons x xs ih =>
    cases n with
    | zero => simp_all
    | succ m =>
      have hx : xs[m]? = some c := by simpa using h
      simpa using ih hx

theorem takeWhile_length_pos {l : List Char} {n : Nat} {c : Char} {p : Char → Bool}
    (h : l[n]? = some c) (hp : p c = true) :
    1 ≤ ((l.drop n).takeWhile p).length := by
  rw [drop_eq_cons h]
  simp [List.takeWhile_cons, hp]

theorem cw_le (content : List Char) (pos : Nat) : pos ≤ consume_whitespace content pos :=
  Nat.le_add_right _ _

theorem cw_adv {content : List Char} {pos : Nat} {c : Char} (h : content[pos]? = some c)
    (hc : pyIsSpace c = true) : pos + 1 ≤ consume_whitespace content pos := by
  unfold consume_whitespace
  have := takeWhile_length_pos h hc
  omega

theorem skip_line_adv (content : List Char) (pos : Nat) : pos + 1 ≤ skip_line content pos := by
  unfold skip_line
  omega

theorem skip_next_adv (content : List Char) (pos : Nat) :
    pos + 1 ≤ skip_to_next_line content pos := by
  unfold skip_to_next_line
  omega

theorem le_cw_of_le {content : List Char} {p q : Nat} (h : q ≤ p) :
    q ≤ consume_whitespace content p :=
  le_trans h (cw_le content p)

theorem le_skip_line_of_le {content : List Char} {p q : Nat} (h : q ≤ p) :
    q ≤ skip_line content p :=
  le_trans h (Nat.le_of_succ_le (skip_line_adv content p))

theorem le_skip_next_of_le {content : List Char} {p q : Nat} (h : q ≤ p) :
    q ≤ skip_to_next_line content p :=
  le_trans h (Nat.le_of_succ_le (skip_next_adv content p))

theorem succ_le_skip_line_of_le {content : List Char} {p q : Nat} (h : q ≤ p) :
    q + 1 ≤ skip_line content p :=
  le_trans (Nat.succ_le_succ h) (skip_line_adv content p)

theorem succ_le_skip_next_of_le {content : List Char} {p q : Nat} (h : q ≤ p) :
    q + 1 ≤ skip_to_next_line content p :=
  le_trans (Nat.succ_le_succ h) (skip_next_adv content p)

theorem pid_le (content : List Char) (pos : Nat) : pos ≤ (parse_identifier content pos).2 := by
  unfold parse_identifier
  dsimp only
  have := cw_le content pos
  omega

theorem pid_adv {content : List Char} {pos : Nat}
    (h : (parse_identifier content pos).1 ≠ "") :
    pos + 1 ≤ (parse_identifier content pos).2 := by
  unfold parse_identifier at h ⊢
  dsimp only at h ⊢
  have hcw := cw_le content pos
  cases htk : (content.drop (consume_whitespace content pos)).takeWhile
      (fun c => pyIsAlnum c || c = '_' || c = '.') with
  | nil => rw [htk] at h; exact absurd rfl h
  | cons a as =>
    simp only [List.length_cons]
    omega

theorem pnum_le (content : List Char) (pos : Nat) : pos ≤ (parse_number content pos).2 := by
  unfold parse_number
  dsimp only
  omega

theorem pparen_le (content : List Char) (pos : Nat) (d : List Diag) :
    pos ≤ (parse_parentheses content pos d).2.1 := by
  unfold parse_parentheses
  dsimp only
  have := cw_le content pos
  split
  · dsimp only; omega
  · split <;> dsimp only <;> omega

theorem le_pparen_of_le {content : List Char} {p q : Nat} {d : List Diag} (h : q ≤ p) :
    q ≤ (parse_parentheses content p d).2.1 :=
  le_trans h (pparen_le content p d)

theorem pstr_le (content : List Char) (pos : Nat) (d : List Diag) :
    pos ≤ (parse_string content pos d).2.1 := by
  unfold parse_string
  dsimp only
  have := cw_le content pos
  split
  · dsimp only; omega
  · split <;> dsimp only <;> omega

theorem le_pstr_of_le {content : List Char} {p q : Nat} {d : List Diag} (h : q ≤ p) :
    q ≤ (parse_string content p d).2.1 :=
  le_trans h (pstr_le content p d)

theorem pmodel_le (content : List Char) (pos : Nat) :
    pos ≤ (parse_model_parameter content pos).2 := by
  unfold parse_model_parameter
  dsimp only
  have := cw_le content pos
  split
  · dsimp only; omega
  · split <;> dsimp only <;> omega

theorem le_pmodel_of_le {content : List Char} {p q : Nat} (h : q ≤ p) :
    q ≤ (parse_model_parameter content p).2 :=
  le_trans h (pmodel_le content p)

theorem le_pnum_of_le {content : List Char} {p q : Nat} (h : q ≤ p) :
    q ≤ (parse_number content p).2 :=
  le_trans h (pnum_le content p)

theorem succ_le_add_of_pos {p q n : Nat} (h1 : q ≤ p) (h2 : 0 < n) : q + 1 ≤ p + n := by
  omega

/-! Monotonicity and fuel sufficiency for the choices loop and the
attribute parser. -/

theorem pcl_mono (content : List Char) :
    ∀ fuel pos acc d out,
      parse_choices_loop content fuel pos acc d = Except.ok out → pos ≤ out.2.1 := by
  intro fuel
  induction fuel with
  | zero =>
    intro pos acc d out h
    unfold parse_choices_loop at h
    split at h
    · rw [Except.ok.injEq] at h; subst h; exact Nat.le_refl _
    · exact Except.noConfusion h
  | succ n ih =>
    intro pos acc d out h
    unfold parse_choices_loop at h
    split at h
    · rw [Except.ok.injEq] at h; subst h; exact Nat.le_refl _
    · dsimp only at h
      split at h
      · exact Except.noConfusion h
      · split at h
        · rw [Except.ok.injEq] at h; subst h
          exact Nat.le_succ_of_le (cw_le content pos)
        · split at h
          · exact le_trans (le_skip_line_of_le (cw_le content pos)) (ih _ _ _ _ h)
          · split at h
            · exact le_trans
                (le_skip_next_of_le (le_trans (cw_le content pos) (Nat.le_add_right _ _)))
                (ih _ _ _ _ h)
            · split at h
              · exact Except.noConfusion h
              · split at h
                · split at h
                  · exact Except.noConfusion h
                  · split at h
                    · exact le_trans
                        (le_pstr_of_le (le_cw_of_le (Nat.le_succ_of_le (le_cw_of_le
                          (le_trans (cw_le content pos) (Nat.le_add_right _ _))))))
                        (ih _ _ _ _ h)
                    · exact le_trans
                        (le_skip_next_of_le (le_cw_of_le (Nat.le_succ_of_le (le_cw_of_le
                          (le_trans (cw_le content pos) (Nat.le_add_right _ _))))))
                        (ih _ _ _ _ h)
                · exact le_trans
                    (le_skip_next_of_le (le_cw_of_le
                      (le_trans (cw_le content pos) (Nat.le_add_right _ _))))
                    (ih _ _ _ _ h)

theorem pcl_nofuel (content : List Char) :
    ∀ fuel pos acc d, content.length ≤ fuel + pos →
      parse_choices_loop content fuel pos acc d ≠ Except.error PErr.fuelOut := by
  intro fuel
  induction fuel with
  | zero =>
    intro pos acc d hf h
    unfold parse_choices_loop at h
    split at h
    · exact Except.noConfusion h
    · rename_i hc; omega
  | succ n ih =>
    intro pos acc d hf h
    unfold parse_choices_loop at h
    split at h
    · exact Except.noConfusion h
    · dsimp only at h
      split at h
      · simp at h
      · split at h
        · exact Except.noConfusion h
        · split at h
          · refine ih _ _ _ ?_ h
            exact le_trans (by omega)
              (Nat.add_le_add_left (succ_le_skip_line_of_le (cw_le content pos)) n)
          · split at h
            · refine ih _ _ _ ?_ h
              exact le_trans (by omega)
                (Nat.add_le_add_left (succ_le_skip_next_of_le
                  (le_trans (cw_le content pos) (Nat.le_add_right _ _))) n)
            · split at h
              · simp at h
              · split at h
                · split at h
                  · simp at h
                  · split at h
                    · refine ih _ _ _ ?_ h
                      exact le_trans (by omega)
                        (Nat.add_le_add_left (le_pstr_of_le (le_cw_of_le
                          (Nat.succ_le_succ (le_cw_of_le
                            (le_trans (cw_le content pos) (Nat.le_add_right _ _)))))) n)
                    · refine ih _ _ _ ?_ h
                      exact le_trans (by omega)
                        (Nat.add_le_add_left (succ_le_skip_next_of_le (le_cw_of_le
                          (Nat.le_succ_of_le (le_cw_of_le
                            (le_trans (cw_le content pos) (Nat.le_add_right _ _)))))) n)
                · refine ih _ _ _ ?_ h
                  exact le_trans (by omega)
                    (Nat.add_le_add_left (succ_le_skip_next_of_le (le_cw_of_le
                      (le_trans (cw_le content pos) (Nat.le_add_right _ _)))) n)

theorem pchoices_mono {content : List Char} {pos : Nat} {d : List Diag} {out}
    (h : parse_choices content pos d = Except.ok out) : pos ≤ out.2.1 := by
  unfold parse_choices at h
  dsimp only at h
  split at h
  · exact Except.noConfusion h
  · split at h
    · rw [Except.ok.injEq] at h; subst h
      exact le_cw_of_le (Nat.le_succ pos)
    · exact le_trans (Nat.le_succ_of_le (le_cw_of_le (Nat.le_succ pos)))
        (pcl_mono content _ _ _ _ _ h)

theorem pchoices_nofuel (content : List Char) (pos : Nat) (d : List Diag) :
    parse_choices content pos d ≠ Except.error PErr.fuelOut := by
  intro h
  unfold parse_choices at h
  dsimp only at h
  split at h
  · simp at h
  · split at h
    · exact Except.noConfusion h
    · exact pcl_nofuel content _ _ _ _ (by omega) h

theorem attach_pos (cs : List Choice) (st : PSt) : (attachChoices cs st).pos = st.pos := by
  unfold attachChoices
  split <;> rfl

theorem ptail_mono {content : List Char} {sp : Nat} {name : String} {st : PSt} {out}
    (h : parse_attribute_tail content sp name st = Except.ok out) : st.pos ≤ out.2.pos := by
  unfold parse_attribute_tail at h
  split at h
  case _ p4 d4 heq =>
    have hp4 : st.pos ≤ p4 := by
      have := pparen_le content st.pos st.diags
      rw [heq] at this
      exact this
    rw [Except.ok.injEq] at h; subst h
    exact hp4
  case _ attr_type p4 d4 heq =>
    have hp4 : st.pos ≤ p4 := by
      have := pparen_le content st.pos st.diags
      rw [heq] at this
      exact this
    dsimp only at h
    split at h
    · split at h
      · split at h
        · exact Except.noConfusion h
        · split at h
          · unfold finishAttr at h
            rw [Except.ok.injEq] at h; subst h
            exact le_pstr_of_le (le_cw_of_le (Nat.le_succ_of_le (le_cw_of_le
              (le_pstr_of_le (le_cw_of_le (Nat.le_succ_of_le (le_cw_of_le hp4)))))))
          · split at h
            · unfold finishAttr at h
              rw [Except.ok.injEq] at h; subst h
              exact le_pnum_of_le (le_cw_of_le (Nat.le_succ_of_le (le_cw_of_le
                (le_pstr_of_le (le_cw_of_le (Nat.le_succ_of_le (le_cw_of_le hp4)))))))
            · unfold finishAttr at h
              rw [Except.ok.injEq] at h; subst h
              exact le_cw_of_le (Nat.le_succ_of_le (le_cw_of_le
                (le_pstr_of_le (le_cw_of_le (Nat.le_succ_of_le (le_cw_of_le hp4))))))
      · unfold finishAttr at h
        rw [Except.ok.injEq] at h; subst h
        exact le_cw_of_le (le_pstr_of_le (le_cw_of_le (Nat.le_succ_of_le
          (le_cw_of_le hp4))))
    · unfold finishAttr at h
      rw [Except.ok.injEq] at h; subst h
      exact le_cw_of_le hp4

theorem ptail_nofuel {content : List Char} {sp : Nat} {name : String} {st : PSt} :
    parse_attribute_tail content sp name st ≠ Except.error PErr.fuelOut := by
  intro h
  unfold parse_attribute_tail at h
  split at h
  · exact Except.noConfusion h
  · dsimp only at h
    split at h
    · split at h
      · split at h
        · simp at h
        · split at h
          · unfold finishAttr at h; exact Except.noConfusion h
          · split at h
            · unfold finishAttr at h; exact Except.noConfusion h
            · unfold finishAttr at h; exact Except.noConfusion h
      · unfold finishAttr at h; exact Except.noConfusion h
    · unfold finishAttr at h; exact Except.noConfusion h

theorem pattr_mono {content : List Char} {st : PSt} {out}
    (h : parse_attribute content st = Except.ok out) : st.pos ≤ out.2.pos := by
  unfold parse_attribute at h
  dsimp only at h
  split at h
  · rw [Except.ok.injEq] at h; subst h
    exact cw_le content st.pos
  · split at h
    · exact Except.noConfusion h
    · split at h
      · rw [Except.ok.injEq] at h; subst h
        exact le_skip_next_of_le (cw_le content st.pos)
      · split at h
        · rw [Except.ok.injEq] at h; subst h
          exact le_trans (cw_le content st.pos)
            (pid_le content (consume_whitespace content st.pos))
        · split at h
          · split at h
            · exact Except.noConfusion h
            · split at h
              · split at h
                · exact Except.noConfusion h
                · rename_i cs p4 d4 heq
                  rw [Except.ok.injEq] at h; subst h
                  have h2 := pchoices_mono heq
                  dsimp only at h2 ⊢
                  rw [attach_pos]
                  exact le_trans (le_cw_of_le (le_trans (cw_le content st.pos)
                    (pid_le content (consume_whitespace content st.pos)))) h2
              · exact le_trans (le_cw_of_le (le_trans (cw_le content st.pos)
                  (pid_le content (consume_whitespace content st.pos)))) (ptail_mono h)
          · exact le_trans (le_cw_of_le (le_trans (cw_le content st.pos)
              (pid_le content (consume_whitespace content st.pos)))) (ptail_mono h)

theorem pattr_nofuel {content : List Char} {st : PSt} :
    parse_attribute content st ≠ Except.error PErr.fuelOut := by
  intro h
  unfold parse_attribute at h
  dsimp only at h
  split at h
  · exact Except.noConfusion h
  · split at h
    · simp at h
    · split at h
      · exact Except.noConfusion h
      · split at h
        · exact Except.noConfusion h
        · split at h
          · split at h
            · simp at h
            · split at h
              · split at h
                · rename_i heq
                  rw [Except.error.injEq] at h; subst h
                  exact pchoices_nofuel content _ _ heq
                · exact Except.noConfusion h
              · exact ptail_nofuel h
          · exact ptail_nofuel h

theorem pattr_adv_some {content : List Char} {st : PSt} {out} {a : Attribute}
    (h : parse_attribute content st = Except.ok out) (ha : out.1 = some a) :
    st.pos + 1 ≤ out.2.pos := by
  unfold parse_attribute at h
  dsimp only at h
  split at h
  · rw [Except.ok.injEq] at h; subst h
    exact Option.noConfusion ha
  · split at h
    · exact Except.noConfusion h
    · split at h
      · rw [Except.ok.injEq] at h; subst h
        exact Option.noConfusion ha
      · split at h
        · rw [Except.ok.injEq] at h; subst h
          exact Option.noConfusion ha
        · rename_i hname
          split at h
          · split at h
            · exact Except.noConfusion h
            · split at h
              · split at h
                · exact Except.noConfusion h
                · rw [Except.ok.injEq] at h; subst h
                  exact Option.noConfusion ha
              · exact le_trans (Nat.succ_le_succ (cw_le content st.pos))
                  (le_trans (pid_adv hname)
                    (le_trans (cw_le content ((parse_identifier content
                      (consume_whitespace content st.pos)).2)) (ptail_mono h)))
          · exact le_trans (Nat.succ_le_succ (cw_le content st.pos))
              (le_trans (pid_adv hname)
                (le_trans (cw_le content ((parse_identifier content
                  (consume_whitespace content st.pos)).2)) (ptail_mono h)))

/-! Monotonicity and fuel sufficiency for the parameter loop, the
attribute block loop, parse_entity and the document driver. -/

theorem paramloop_mono {jd : String → Option JValue} {content : List Char} :
    ∀ fuel ps out, param_loop jd content fuel ps = Except.ok out → ps.pos ≤ out.pos := by
  intro fuel
  induction fuel with
  | zero =>
    intro ps out h
    unfold param_loop at h
    split at h
    · rw [Except.ok.injEq] at h; subst h; exact Nat.le_refl _
    · split at h
      · rw [Except.ok.injEq] at h; subst h; exact Nat.le_refl _
      · exact Except.noConfusion h
  | succ n ih =>
    intro ps out h
    unfold param_loop at h
    split at h
    · rw [Except.ok.injEq] at h; subst h; exact Nat.le_refl _
    · split at h
      · rw [Except.ok.injEq] at h; subst h; exact Nat.le_refl _
      · dsimp only at h
        split at h
        · exact le_trans (le_pparen_of_le (Nat.le_add_right ps.pos 5)) (ih _ _ h)
        · split at h
          · exact le_trans (le_pparen_of_le (Nat.le_add_right ps.pos 4)) (ih _ _ h)
          · split at h
            · exact le_trans (le_pparen_of_le (Nat.le_add_right ps.pos 4)) (ih _ _ h)
            · split at h
              · exact le_trans (le_pmodel_of_le (Nat.le_add_right ps.pos 5)) (ih _ _ h)
              · exact le_trans (le_cw_of_le (Nat.le_add_right ps.pos _)) (ih _ _ h)

theorem paramloop_nofuel {jd : String → Option JValue} {content : List Char} :
    ∀ fuel ps, content.length ≤ fuel + ps.pos →
      param_loop jd content fuel ps ≠ Except.error PErr.fuelOut := by
  intro fuel
  induction fuel with
  | zero =>
    intro ps hf h
    unfold param_loop at h
    split at h
    · exact Except.noConfusion h
    · split at h
      · exact Except.noConfusion h
      · rename_i hlen _; omega
  | succ n ih =>
    intro ps hf h
    unfold param_loop at h
    split at h
    · exact Except.noConfusion h
    · split at h
      · exact Except.noConfusion h
      · dsimp only at h
        rename_i hlen hne
        split at h
        · refine ih _ ?_ h
          dsimp only
          exact le_trans (by omega)
            (Nat.add_le_add_left (le_pparen_of_le (show ps.pos + 1 ≤ ps.pos + 5 by omega)) n)
        · split at h
          · refine ih _ ?_ h
            dsimp only
            exact le_trans (by omega)
              (Nat.add_le_add_left (le_pparen_of_le (show ps.pos + 1 ≤ ps.pos + 4 by omega)) n)
          · split at h
            · refine ih _ ?_ h
              dsimp only
              exact le_trans (by omega)
                (Nat.add_le_add_left (le_pparen_of_le (show ps.pos + 1 ≤ ps.pos + 4 by omega)) n)
            · split at h
              · refine ih _ ?_ h
                dsimp only
                exact le_trans (by omega)
                  (Nat.add_le_add_left (le_pmodel_of_le (show ps.pos + 1 ≤ ps.pos + 5 by omega)) n)
              · refine ih _ ?_ h
                dsimp only
                cases hc : content[ps.pos]? with
                | none =>
                  rw [List.getElem?_eq_none_iff] at hc
                  omega
                | some c =>
                  have hcne : c ≠ '=' := by
                    intro he
                    exact hne (by rw [hc, he])
                  by_cases hsp : pyIsSpace c = true
                  · have hP : (!pyIsSpace c && !(decide (c = '='))) = false := by
                      simp [hsp]
                    rw [drop_eq_cons hc]
                    simp only [List.takeWhile_cons, hP, Bool.false_eq_true, if_false,
                      List.length_nil, Nat.add_zero]
                    have := cw_adv hc hsp
                    omega
                  · have hP : (!pyIsSpace c && !(decide (c = '='))) = true := by
                      simp [Bool.not_eq_true] at hsp
                      simp [hsp, hcne]
                    have h1 := @takeWhile_length_pos content ps.pos c
                      (fun ch => !pyIsSpace ch && !(ch = '=')) hc hP
                    exact le_trans (by omega)
                      (Nat.add_le_add_left (le_cw_of_le
                        (succ_le_add_of_pos (Nat.le_refl ps.pos) h1)) n)

theorem attrloop_mono {content : List Char} :
    ∀ fuel st out, attr_loop content fuel st = Except.ok out → st.pos ≤ out.pos := by
  intro fuel
  induction fuel with
  | zero =>
    intro st out h
    unfold attr_loop at h
    split at h
    · rw [Except.ok.injEq] at h; subst h; exact Nat.le_refl _
    · exact Except.noConfusion h
  | succ n ih =>
    intro st out h
    unfold attr_loop at h
    split at h
    · rw [Except.ok.injEq] at h; subst h; exact Nat.le_refl _
    · dsimp only at h
      split at h
      · rw [Except.ok.injEq] at h; subst h; exact cw_le content st.pos
      · split at h
        · rw [Except.ok.injEq] at h; subst h; exact cw_le content st.pos
        · split at h
          · exact le_trans (Nat.le_succ_of_le (cw_le content st.pos)) (ih _ _ h)
          · split at h
            · exact le_trans (le_skip_line_of_le (cw_le content st.pos)) (ih _ _ h)
            · split at h
              · exact Except.noConfusion h
              · rename_i a st2 heq
                have h2 := pattr_mono heq
                have h3 := ih _ _ h
                have h4 := cw_le content st.pos
                dsimp only at h2 h3
                omega
              · rename_i st2 heq
                have h2 := pattr_mono heq
                have h3 := ih _ _ h
                have h4 := cw_le content st.pos
                have h5 := skip_next_adv content st2.pos
                dsimp only at h2 h3
                omega

theorem attrloop_nofuel {content : List Char} :
    ∀ fuel st, content.length ≤ fuel + st.pos →
      attr_loop content fuel st ≠ Except.error PErr.fuelOut := by
  intro fuel
  induction fuel with
  | zero =>
    intro st hf h
    unfold attr_loop at h
    split at h
    · exact Except.noConfusion h
    · rename_i hlen; omega
  | succ n ih =>
    intro st hf h
    unfold attr_loop at h
    split at h
    · exact Except.noConfusion h
    · dsimp only at h
      split at h
      · exact Except.noConfusion h
      · split at h
        · exact Except.noConfusion h
        · split at h
          · refine ih _ ?_ h
            dsimp only
            have := cw_le content st.pos
            omega
          · split at h
            · refine ih _ ?_ h
              dsimp only
              have := skip_line_adv content (consume_whitespace content st.pos)
              have := cw_le content st.pos
              omega
            · split at h
              · rename_i heq
                rw [Except.error.injEq] at h; subst h
                exact pattr_nofuel heq
              · rename_i a st2 heq
                refine ih _ ?_ h
                dsimp only
                have h1 := pattr_adv_some heq rfl
                have := cw_le content st.pos
                dsimp only at h1
                omega
              · rename_i st2 heq
                refine ih _ ?_ h
                dsimp only
                have h1 := pattr_mono heq
                have h2 := skip_next_adv content st2.pos
                have := cw_le content st.pos
                dsimp only at h1
                omega

theorem pentity_adv {jd : String → Option JValue} {content : List Char} {st : PSt} {st4 : PSt}
    (h : parse_entity jd content st = Except.ok st4) : st.pos + 1 ≤ st4.pos := by
  unfold parse_entity at h
  dsimp only at h
  split at h
  · exact Except.noConfusion h
  · rename_i ps heqp
    have hps : st.pos + 1 ≤ ps.pos := by
      have h1 := paramloop_mono _ _ _ heqp
      have h2 := pid_le content (st.pos + 1)
      have h3 := cw_le content (parse_identifier content (st.pos + 1)).2
      dsimp only at h1
      omega
    have hp5 : st.pos + 1 ≤ consume_whitespace content
        (parse_identifier content (consume_whitespace content (ps.pos + 1))).2 :=
      le_cw_of_le (le_trans hps (le_trans (Nat.le_succ ps.pos)
        (le_trans (cw_le content (ps.pos + 1))
          (pid_le content (consume_whitespace content (ps.pos + 1))))))
    split at h
    · exact Except.noConfusion h
    · rename_i c3 heqc
      by_cases hdesc : c3 = ':'
      · rw [if_pos hdesc] at h
        have hp7 : st.pos + 1 ≤ consume_whitespace content
            (parse_string content (consume_whitespace content (consume_whitespace content
              (parse_identifier content (consume_whitespace content (ps.pos + 1))).2 + 1))
              ps.diags).2.1 :=
          le_cw_of_le (le_pstr_of_le (le_cw_of_le (Nat.le_succ_of_le hp5)))
        split at h
        · exact Except.noConfusion h
        · rename_i st3 heqA
          rw [Except.ok.injEq] at h; subst h
          dsimp only
          split at heqA
          · split at heqA
            · exact Except.noConfusion heqA
            · rename_i st2 heqa
              have h1 := attrloop_mono _ _ _ heqa
              dsimp only at h1
              split at heqA
              · rw [Except.ok.injEq] at heqA; subst heqA
                dsimp only
                omega
              · rw [Except.ok.injEq] at heqA; subst heqA
                omega
          · rw [Except.ok.injEq] at heqA; subst heqA
            dsimp only
            exact hp7
      · rw [if_neg hdesc] at h
        dsimp only at h
        have hp7 : st.pos + 1 ≤ consume_whitespace content (consume_whitespace content
            (parse_identifier content (consume_whitespace content (ps.pos + 1))).2) :=
          le_cw_of_le hp5
        split at h
        · exact Except.noConfusion h
        · rename_i st3 heqA
          rw [Except.ok.injEq] at h; subst h
          dsimp only
          split at heqA
          · split at heqA
            · exact Except.noConfusion heqA
            · rename_i st2 heqa
              have h1 := attrloop_mono _ _ _ heqa
              dsimp only at h1
              split at heqA
              · rw [Except.ok.injEq] at heqA; subst heqA
                dsimp only
                omega
              · rw [Except.ok.injEq] at heqA; subst heqA
                omega
          · rw [Except.ok.injEq] at heqA; subst heqA
            dsimp only
            exact hp7

theorem pentity_nofuel {jd : String → Option JValue} {content : List Char} {st : PSt} :
    parse_entity jd content st ≠ Except.error PErr.fuelOut := by
  intro h
  unfold parse_entity at h
  dsimp only at h
  split at h
  · rename_i heqp
    rw [Except.error.injEq] at h; subst h
    exact paramloop_nofuel _ _ (by dsimp only; omega) heqp
  · split at h
    · simp at h
    · rename_i c3 heqc
      by_cases hdesc : c3 = ':'
      · rw [if_pos hdesc] at h
        split at h
        · rename_i e heqA
          rw [Except.error.injEq] at h; subst h
          split at heqA
          · split at heqA
            · rename_i heqa
              rw [Except.error.injEq] at heqA; subst heqA
              exact attrloop_nofuel _ _ (by dsimp only; omega) heqa
            · split at heqA
              · exact Except.noConfusion heqA
              · exact Except.noConfusion heqA
          · exact Except.noConfusion heqA
        · exact Except.noConfusion h
      · rw [if_neg hdesc] at h
        dsimp only at h
        split at h
        · rename_i e heqA
          rw [Except.error.injEq] at h; subst h
          split at heqA
          · split at heqA
            · rename_i heqa
              rw [Except.error.injEq] at heqA; subst heqA
              exact attrloop_nofuel _ _ (by dsimp only; omega) heqa
            · split at heqA
              · exact Except.noConfusion heqA
              · exact Except.noConfusion heqA
          · exact Except.noConfusion heqA
        · exact Except.noConfusion h

theorem ploop_nofuel {jd : String → Option JValue} {content : List Char} :
    ∀ fuel st, content.length ≤ fuel + st.pos →
      parse_loop jd content fuel st ≠ Except.error PErr.fuelOut := by
  intro fuel
  induction fuel with
  | zero =>
    intro st hf h
    unfold parse_loop at h
    split at h
    · exact Except.noConfusion h
    · rename_i hlen; omega
  | succ n ih =>
    intro st hf h
    unfold parse_loop at h
    split at h
    · exact Except.noConfusion h
    · dsimp only at h
      split at h
      · exact Except.noConfusion h
      · split at h
        · refine ih _ ?_ h
          dsimp only
          have := skip_line_adv content (consume_whitespace content st.pos)
          have := cw_le content st.pos
          omega
        · split at h
          · split at h
            · rename_i heq
              rw [Except.error.injEq] at h; subst h
              exact pentity_nofuel heq
            · rename_i st2 heq
              refine ih _ ?_ h
              have h1 := pentity_adv heq
              have := cw_le content st.pos
              dsimp only at h1
              omega
          · refine ih _ ?_ h
            dsimp only
            have := cw_le content st.pos
            omega

theorem ploop_end {jd : String → Option JValue} {content : List Char} :
    ∀ fuel st out, parse_loop jd content fuel st = Except.ok out →
      content.length ≤ out.pos := by
  intro fuel
  induction fuel with
  | zero =>
    intro st out h
    unfold parse_loop at h
    split at h
    · rename_i hlen
      rw [Except.ok.injEq] at h; subst h
      exact hlen
    · exact Except.noConfusion h
  | succ n ih =>
    intro st out h
    unfold parse_loop at h
    split at h
    · rename_i hlen
      rw [Except.ok.injEq] at h; subst h
      exact hlen
    · dsimp only at h
      split at h
      · rename_i hlen
        rw [Except.ok.injEq] at h; subst h
        exact hlen
      · split at h
        · exact ih _ _ h
        · split at h
          · split at h
            · exact Except.noConfusion h
            · exact ih _ _ h
          · exact ih _ _ h

/-! Theorems for the individual specification claims.  The concrete
evaluations disable smart unfolding: the plain definitional unfolding used
by the kernel evaluates the parser directly. -/

/-- The single entity expected for claim C1. -/
def c1Expected : EntityClass :=
  { class_type := "pointclass", base := none, color := some "255 0 0", size := none,
    model := none, classname := "foo", description := "desc",
    attributes := [{ name := "attr", type := "integer", description := "a",
                     default := some "3", choices := none }] }

set_option smartUnfolding false in
/-- Claim C1: for the well formed input with one point class, a color
parameter, classname foo, description desc and a single integer attribute
with description and default, parse returns exactly one EntityClass with
exactly the stated fields and no diagnostics, whatever the json decoder is
(the input has no model parameter). -/
theorem c1_wellformed_single_entity :
    ∀ jd : String → Option JValue,
      parse jd "@PointClass color(255 0 0) = foo : \"desc\" [ attr(integer) : \"a\" : \"3\" ]" =
        Except.ok ([c1Expected], []) :=
  fun _ => rfl

/-- Claim C2 (code bug): parse is not exception free on malformed input.
On the truncated entity input consisting only of an at sign and a class
type, the description check of parse_entity (line 135 of the source)
indexes the input past its end and Python raises IndexError. -/
theorem c2_truncated_entity_raises :
    parse (fun _ => none) "@a" = Except.error PErr.indexError :=
  rfl

set_option smartUnfolding false in
/-- Counterexample to claim C3: input with two entities where only the
second entity block contains a choices block and no attribute of its own.
The choices block attaches to the attribute of the FIRST entity, because
self.last_attribute persists across attribute blocks and entities; so a
choices block can attach to an attribute of an earlier entity, refuting
the claim.  The projection below shows entity e1 attribute a carrying the
choices parsed inside the block of entity e2. -/
theorem c3_choices_cross_entity_cx :
    (parse (fun _ => none)
      "@PointClass = e1 : \"d1\" [\na(integer) : \"x\"\n]\n@PointClass = e2 : \"d2\" [\nchoices = [\n1 : \"one\"\n]\n]\n").map
      (fun r => r.1.map (fun e =>
        (e.classname, e.attributes.map (fun a => (a.name, a.choices))))) =
    Except.ok [("e1", [("a", some [{ value := "1", description := "one" }])]), ("e2", [])] :=
  rfl

/-- The entity expected for the amended claim C3: attribute a keeps absent
choices, attribute b receives both entries in encounter order. -/
def c3Expected : EntityClass :=
  { class_type := "pointclass", base := none, color := none, size := none,
    model := none, classname := "e", description := "d",
    attributes := [
      { name := "a", type := "integer", description := "x", default := none,
        choices := none },
      { name := "b", type := "integer", description := "y", default := none,
        choices := some [{ value := "1", description := "one" },
                         { value := "2", description := "two" }] }] }

set_option smartUnfolding false in
/-- Claim C3 as amended: a choices block attaches to the most recently
parsed attribute; given two attributes in sequence where only the second
is followed by a choices block, the first attribute keeps absent choices
and the second receives the choice entries in encounter order.  (The
cross entity attachment shown by the counterexample is the only part of
the original claim that fails.) -/
theorem c3_choices_attach_most_recent :
    parse (fun _ => none)
      "@PointClass = e : \"d\" [\na(integer) : \"x\"\nb(integer) : \"y\"\nchoices = [\n1 : \"one\"\n2 : \"two\"\n]\n]\n" =
      Except.ok ([c3Expected], []) :=
  rfl

/-- Claim C4: parse terminates on every input.  The parser embedding runs
every source loop on a step budget of input length plus one; the first
conjunct states that this budget is never exhausted (each loop iteration
consumes at least one character), and the second states that on a normal
return the cursor has reached the end of the input. -/
theorem c4_parse_terminates :
    ∀ (jd : String → Option JValue) (content : List Char),
      parseWith jd content ≠ Except.error PErr.fuelOut ∧
      (∀ st1, parse_loop jd content (content.length + 1) initSt = Except.ok st1 →
        content.length ≤ st1.pos) := by
  intro jd content
  constructor
  · intro h
    unfold parseWith at h
    split at h
    · exact Except.noConfusion h
    · rename_i e heq
      rw [Except.error.injEq] at h; subst h
      refine ploop_nofuel _ _ ?_ heq
      have hz : initSt.pos = 0 := rfl
      omega
  · intro st1 h
    exact ploop_end _ _ _ h

set_option smartUnfolding false in
/-- Witness for claim C4 at a concrete input. -/
theorem c4_terminates_witness :
    parse_loop (fun _ => none) "ab".data ("ab".data.length + 1) initSt =
      Except.ok { pos := 2, entities := [], curAttrs := [], last_attribute := none,
                  diags := [] } ∧
    "ab".data.length ≤ 2 :=
  ⟨rfl, (c4_parse_terminates (fun _ => none) "ab".data).2
    { pos := 2, entities := [], curAttrs := [], last_attribute := none, diags := [] } rfl⟩

/-- Claim C8: parsing is deterministic.  Two parses of the same text, each
from a freshly constructed parser state (initSt embeds the constructor of
FGDParser), give structurally equal results; in the embedding the parser
is a pure function of the input text and the decoder, and the module
level global ENTITY_CLASSES is never read by parse. -/
theorem c8_parse_deterministic :
    ∀ (jd : String → Option JValue) (s : String),
      (match parse_loop jd s.data (s.data.length + 1) initSt with
       | Except.ok st => Except.ok (st.entities, st.diags)
       | Except.error e => Except.error e) =
      (match parse_loop jd s.data (s.data.length + 1) initSt with
       | Except.ok st => Except.ok (st.entities, st.diags)
       | Except.error e => Except.error e) ∧
      parse jd s = parse jd s :=
  fun _ _ => ⟨rfl, rfl⟩

/-- Claim C9: the empty input yields an empty entity sequence, no
exception and no diagnostics. -/
theorem c9_empty_input :
    ∀ jd : String → Option JValue, parse jd "" = Except.ok ([], []) :=
  fun _ => rfl

/-- The model parameter interior text of the C7 example, which no JSON
decoder accepts. -/
def c7Text : String := "not valid json even with quote swap"

/-- The entity expected for claim C7: the model field holds the fallback
object. -/
def c7Expected : EntityClass :=
  { class_type := "pointclass", base := none, color := none, size := none,
    model := some (JValue.obj [("path", JValue.str c7Text)]),
    classname := "foo", description := "d", attributes := [] }

set_option smartUnfolding false in
set_option maxHeartbeats 1000000 in
/-- Claim C7: when the decoder rejects the model parameter interior even
after the quote replacement, the entity is still produced and its model is
the single field fallback object with the raw interior under the path
key.  The statement quantifies over every decoder jd that fails on this
interior text (for this text the quote replacement is the identity, as it
contains no single quotes). -/
theorem c7_model_fallback :
    ∀ jd : String → Option JValue,
      jd c7Text = none →
      parse jd "@PointClass model(not valid json even with quote swap) = foo : \"d\"" =
        Except.ok ([c7Expected], []) := by
  intro jd hjd
  have hfun : jd = fun s => if s = c7Text then none else jd s := by
    funext s
    by_cases hs : s = c7Text
    · rw [hs, if_pos rfl, hjd]
    · rw [if_neg hs]
  rw [hfun]
  rfl

/-- Witness for claim C7: the always failing decoder. -/
theorem c7_model_fallback_witness :
    parse (fun _ => none) "@PointClass model(not valid json even with quote swap) = foo : \"d\"" =
      Except.ok ([c7Expected], []) :=
  c7_model_fallback (fun _ => none) rfl

/-! Claim C6: an unbalanced opening parenthesis never hangs and never
produces a value.  The semantic hypothesis used below states that no
prefix of the scanned text balances the single open parenthesis: in every
prefix, the closing parentheses number strictly fewer than the opening
parentheses plus one. -/

theorem parenScan_unbalanced (l : List Char) :
    ∀ cnt iter, 0 < cnt →
      (∀ k, (l.take k).count ')' < (l.take k).count '(' + cnt) →
      0 < (parenScan l cnt iter).2 ∨ iter + (parenScan l cnt iter).1 = 1000 := by
  induction l with
  | nil =>
    intro cnt iter hcnt _
    exact Or.inl hcnt
  | cons c rest ih =>
    intro cnt iter hcnt H
    unfold parenScan
    dsimp only
    split
    · by_cases h1 : c = '('
      · subst h1
        rw [if_pos rfl]
        have H2 : ∀ k, (rest.take k).count ')' < (rest.take k).count '(' + (cnt + 1) := by
          intro k
          have := H (k + 1)
          rw [List.take_succ_cons] at this
          simp [List.count_cons] at this
          omega
        rcases ih (cnt + 1) (iter + 1) (by omega) H2 with h | h
        · exact Or.inl h
        · exact Or.inr (by omega)
      · rw [if_neg h1]
        by_cases h2 : c = ')'
        · subst h2
          rw [if_pos rfl]
          have hc2 : 2 ≤ cnt := by
            have := H 1
            rw [List.take_succ_cons] at this
            simp [List.count_cons] at this
            omega
          have H2 : ∀ k, (rest.take k).count ')' < (rest.take k).count '(' + (cnt - 1) := by
            intro k
            have := H (k + 1)
            rw [List.take_succ_cons] at this
            simp [List.count_cons] at this
            omega
          rcases ih (cnt - 1) (iter + 1) (by omega) H2 with h | h
          · exact Or.inl h
          · exact Or.inr (by omega)
        · rw [if_neg h2]
          have H2 : ∀ k, (rest.take k).count ')' < (rest.take k).count '(' + cnt := by
            intro k
            have := H (k + 1)
            rw [List.take_succ_cons] at this
            simp [List.count_cons, h1, h2] at this
            omega
          rcases ih cnt (iter + 1) hcnt H2 with h | h
          · exact Or.inl h
          · exact Or.inr (by omega)
    · exact Or.inl hcnt

theorem pparen_unbalanced {content : List Char} {pos : Nat} {d : List Diag}
    (hp : content[consume_whitespace content pos]? = some '(')
    (H : ∀ k, ((content.drop (consume_whitespace content pos + 1)).take k).count ')'
        < ((content.drop (consume_whitespace content pos + 1)).take k).count '(' + 1) :
    (parse_parentheses content pos d).1 = none := by
  have hlt : consume_whitespace content pos < content.length := by
    by_contra hge
    rw [List.getElem?_eq_none_iff.mpr (by omega)] at hp
    exact Option.noConfusion hp
  unfold parse_parentheses
  dsimp only
  rw [if_neg (by push_neg; exact ⟨hlt, hp⟩)]
  split
  · rfl
  · rename_i hcond
    exfalso
    rcases parenScan_unbalanced (content.drop (consume_whitespace content pos + 1)) 1 0
      (by omega) H with h | h
    · exact hcond (Or.inl h)
    · exact hcond (Or.inr (by omega))

/-- The C6 input: a size parameter whose parenthesis scan hits the 1000
iteration cap before finding any closing parenthesis, followed by the rest
of a well formed entity. -/
def c6Input : List Char :=
  "@PointClass size(".data ++ List.replicate 1000 'x' ++ " = foo : \"d\"".data

/-- The entity produced for the C6 input: size is absent. -/
def c6Expected : EntityClass :=
  { class_type := "pointclass", base := none, color := none, size := none,
    model := none, classname := "foo", description := "d", attributes := [] }

set_option smartUnfolding false in
set_option maxRecDepth 100000 in
/-- Claim C6: an entity whose size parameter has an unbalanced opening
parenthesis does not hang the parser and its size field is absent.  First
conjunct: whenever no prefix of the text after the opening parenthesis
balances it, parse_parentheses returns no value (so the size assignment in
parse_entity line 101 stores None).  Second conjunct: on a concrete entity
whose size scan hits the iteration cap, the entity is produced with size
none and a parenthesis diagnostic.  Termination itself is claim C4. -/
theorem c6_unbalanced_size :
    (∀ content pos d, content[consume_whitespace content pos]? = some '(' →
      (∀ k, ((content.drop (consume_whitespace content pos + 1)).take k).count ')'
        < ((content.drop (consume_whitespace content pos + 1)).take k).count '(' + 1) →
      (parse_parentheses content pos d).1 = none) ∧
    (∀ jd, parseWith jd c6Input =
      Except.ok ([c6Expected], [Diag.parenWarning (String.mk (List.replicate 50 'x'))])) :=
  ⟨fun _ _ _ hp H => pparen_unbalanced hp H, fun _ => rfl⟩

/-- Witness for claim C6: a bare run of opening parentheses never
balances, and parse_parentheses yields no value on it. -/
theorem c6_unbalanced_size_witness :
    (parse_parentheses "(((".data 0 []).1 = none :=
  c6_unbalanced_size.1 "(((".data 0 [] (by decide) (fun k => by
    have h1 := (List.take_sublist k
      ("(((".data.drop (consume_whitespace "(((".data 0 + 1))).count_le ')'
    have h2 : ("(((".data.drop (consume_whitespace "(((".data 0 + 1)).count ')' = 0 := by
      decide
    omega)

/-! Claim C5: unterminated quoted strings.  The scan of parse_string on a
quote free tail runs for the minimum of the remaining length and the 1000
iteration cap. -/

theorem stringScan_no_quote (l : List Char) :
    ∀ iter, (∀ c ∈ l, c ≠ '"') → stringScan l iter = min l.length (1000 - iter) := by
  induction l with
  | nil =>
    intro iter _
    unfold stringScan
    simp only [List.length_nil]
    omega
  | cons c rest ih =>
    intro iter h
    have hc : c ≠ '"' := h c (List.mem_cons_self c rest)
    unfold stringScan
    by_cases hi : iter < 1000
    · rw [if_pos ⟨hc, hi⟩, ih (iter + 1) (fun x hx => h x (List.mem_cons_of_mem c hx))]
      simp only [List.length_cons]
      omega
    · rw [if_neg (fun hand => hi hand.2)]
      simp only [List.length_cons]
      omega

/-- Counterexample to claim C5: a short unterminated string.  parse_string
reaches the end of input in fewer than 1000 iterations, returns the
remaining text after the opening quote (nonempty, not the claimed empty or
absent result) and emits no diagnostic. -/
theorem c5_short_unterminated_cx :
    (parse_string "\"abc".data 0 []).1 = "abc" ∧
    (parse_string "\"abc".data 0 []).1 ≠ "" ∧
    (parse_string "\"abc".data 0 []).2.2 = [] :=
  ⟨rfl, by decide, rfl⟩

/-- Claim C5 as amended: on an unterminated quoted string parsing
terminates, and parse_string behaves in one of two ways.  If at least 1000
characters remain after the opening quote, the scan hits the iteration
cap: the result is the empty string and a diagnostic is logged.  If fewer
than 1000 characters remain, the scan stops at the end of input: the
result is the remaining text after the opening quote (trimmed), no
diagnostic is logged, and the cursor is moved one past the end of the
input.  (The original claim asserted the empty result and the diagnostic
in both cases; the counterexample refutes that for the short case.) -/
theorem c5_unterminated_string {content : List Char} {pos : Nat} {d : List Diag}
    (hq : content[consume_whitespace content pos]? = some '"')
    (hno : ∀ c ∈ content.drop (consume_whitespace content pos + 1), c ≠ '"') :
    (1000 ≤ content.length - (consume_whitespace content pos + 1) →
      parse_string content pos d = ("", consume_whitespace content pos + 1 + 1000,
        d ++ [Diag.stringWarning (snippet content (consume_whitespace content pos + 1))])) ∧
    (content.length - (consume_whitespace content pos + 1) < 1000 →
      parse_string content pos d =
        (String.mk (pyStrip (content.drop (consume_whitespace content pos + 1))),
         content.length + 1, d)) := by
  have hlt : consume_whitespace content pos < content.length := by
    by_contra hge
    rw [List.getElem?_eq_none_iff.mpr (by omega)] at hq
    exact Option.noConfusion hq
  have hscan : stringScan (content.drop (consume_whitespace content pos + 1)) 0 =
      min (content.length - (consume_whitespace content pos + 1)) 1000 := by
    rw [stringScan_no_quote _ 0 hno, List.length_drop]
  constructor
  · intro hcap
    unfold parse_string
    dsimp only
    rw [if_neg (by push_neg; exact ⟨hlt, hq⟩), hscan, if_pos (by omega)]
    have hm : min (content.length - (consume_whitespace content pos + 1)) 1000 = 1000 := by
      omega
    rw [hm]
  · intro hlo
    unfold parse_string
    dsimp only
    rw [if_neg (by push_neg; exact ⟨hlt, hq⟩), hscan, if_neg (by omega)]
    have hm : min (content.length - (consume_whitespace content pos + 1)) 1000 =
        content.length - (consume_whitespace content pos + 1) := by
      omega
    rw [hm]
    have hext : extract content (consume_whitespace content pos + 1)
        (consume_whitespace content pos + 1 +
          (content.length - (consume_whitespace content pos + 1))) =
        content.drop (consume_whitespace content pos + 1) := by
      unfold extract
      have h1 : consume_whitespace content pos + 1 +
          (content.length - (consume_whitespace content pos + 1)) -
          (consume_whitespace content pos + 1) =
          content.length - (consume_whitespace content pos + 1) := by
        omega
      rw [h1, ← List.length_drop, List.take_length]
    rw [hext]
    have h2 : consume_whitespace content pos + 1 +
        (content.length - (consume_whitespace content pos + 1)) + 1 =
        content.length + 1 := by
      omega
    rw [h2]

/-- Witness for the amended claim C5 at a short unterminated string. -/
theorem c5_unterminated_string_witness :
    parse_string " \"zz".data 0 [] = ("zz", 5, []) :=
  (@c5_unterminated_string " \"zz".data 0 [] (by decide) (by decide)).2 (by decide)

/-! Claim C10: every Choice stored in any attribute of the output has a
nonempty value made only of digit characters and the minus sign.  This is
an invariant of the whole parse, established by showing that the choices
loop only appends such values and that every state transformation
preserves the property. -/

/-- A choice value as produced by the digit scan of parse_choices. -/
def GoodChoice (c : Choice) : Prop :=
  c.value ≠ "" ∧ ∀ ch ∈ c.value.data, pyIsDigit ch = true ∨ ch = '-'

/-- All choice lists stored in an attribute are good. -/
def GoodAttr (a : Attribute) : Prop :=
  ∀ cs, a.choices = some cs → ∀ c ∈ cs, GoodChoice c

/-- All attributes of an entity are good. -/
def GoodEnt (e : EntityClass) : Prop :=
  ∀ a ∈ e.attributes, GoodAttr a

/-- All stored attributes, finished or in progress, are good. -/
def GoodSt (st : PSt) : Prop :=
  (∀ e ∈ st.entities, GoodEnt e) ∧ (∀ a ∈ st.curAttrs, GoodAttr a)

theorem digit_or_dash_not_space {c : Char} (h : pyIsDigit c = true ∨ c = '-') :
    pyIsSpace c = false := by
  rcases h with h | h
  · by_contra hs
    have hs2 : pyIsSpace c = true := by
      revert hs
      cases pyIsSpace c <;> simp
    unfold pyIsSpace at hs2
    simp only [Bool.or_eq_true, decide_eq_true_eq] at hs2
    rcases hs2 with ((((h1 | h1) | h1) | h1) | h1) | h1 <;> subst h1 <;>
      exact absurd h (by decide)
  · subst h
    decide

theorem pyStrip_eq_self {l : List Char} (h : ∀ c ∈ l, pyIsSpace c = false) :
    pyStrip l = l := by
  have key : ∀ m : List Char, (∀ c ∈ m, pyIsSpace c = false) → m.dropWhile pyIsSpace = m := by
    intro m hm
    cases m with
    | nil => rfl
    | cons a as => simp [List.dropWhile_cons, hm a (List.mem_cons_self a as)]
  unfold pyStrip
  rw [key l h, key l.reverse (fun c hc => h c (List.mem_reverse.mp hc)), List.reverse_reverse]

theorem mk_ne_empty {l : List Char} (h : l ≠ []) : String.mk l ≠ "" := by
  intro he
  exact h (congrArg String.data he)

theorem goodChoice_of_digits {v : List Char} (hne : v ≠ [])
    (hall : ∀ c ∈ v, (pyIsDigit c || c = '-') = true) (desc : String) :
    GoodChoice { value := String.mk (pyStrip v), description := desc } := by
  have hall2 : ∀ c ∈ v, pyIsDigit c = true ∨ c = '-' := by
    intro c hc
    have hx := hall c hc
    simp only [Bool.or_eq_true, decide_eq_true_eq] at hx
    exact hx
  have hnosp : ∀ c ∈ v, pyIsSpace c = false := fun c hc => digit_or_dash_not_space (hall2 c hc)
  have hstrip : pyStrip v = v := pyStrip_eq_self hnosp
  constructor
  · show String.mk (pyStrip v) ≠ ""
    rw [hstrip]
    exact mk_ne_empty hne
  · intro ch hch
    have hch2 : ch ∈ pyStrip v := hch
    rw [hstrip] at hch2
    exact hall2 ch hch2

theorem modifyIdx_mem {α : Type} {P : α → Prop} {f : α → α}
    (hf : ∀ x, P x → P (f x)) :
    ∀ (l : List α) (i : Nat), (∀ x ∈ l, P x) → ∀ x ∈ modifyIdx l i f, P x := by
  intro l
  induction l with
  | nil =>
    intro i _ x hx
    unfold modifyIdx at hx
    exact absurd hx (List.not_mem_nil x)
  | cons a as ih =>
    intro i hl x hx
    cases i with
    | zero =>
      unfold modifyIdx at hx
      rcases List.mem_cons.mp hx with h1 | h1
      · subst h1
        exact hf a (hl a (List.mem_cons_self a as))
      · exact hl x (List.mem_cons_of_mem a h1)
    | succ m =>
      unfold modifyIdx at hx
      rcases List.mem_cons.mp hx with h1 | h1
      · subst h1
        exact hl x (List.mem_cons_self x as)
      · exact ih m (fun y hy => hl y (List.mem_cons_of_mem a hy)) x h1

theorem mem_takeWhile_prop {α : Type} (p : α → Bool) (l : List α) :
    ∀ x ∈ l.takeWhile p, p x = true := by
  intro x hx
  exact List.mem_takeWhile_imp hx

theorem pcl_good (content : List Char) :
    ∀ fuel pos acc d out, parse_choices_loop content fuel pos acc d = Except.ok out →
      (∀ c ∈ acc, GoodChoice c) → ∀ c ∈ out.1, GoodChoice c := by
  intro fuel
  induction fuel with
  | zero =>
    intro pos acc d out h hacc
    unfold parse_choices_loop at h
    split at h
    · rw [Except.ok.injEq] at h; subst h; exact hacc
    · exact Except.noConfusion h
  | succ n ih =>
    intro pos acc d out h hacc
    unfold parse_choices_loop at h
    split at h
    · rw [Except.ok.injEq] at h; subst h; exact hacc
    · dsimp only at h
      split at h
      · exact Except.noConfusion h
      · split at h
        · rw [Except.ok.injEq] at h; subst h; exact hacc
        · split at h
          · exact ih _ _ _ _ h hacc
          · split at h
            · exact ih _ _ _ _ h hacc
            · split at h
              · exact Except.noConfusion h
              · split at h
                · split at h
                  · exact Except.noConfusion h
                  · split at h
                    · refine ih _ _ _ _ h ?_
                      intro c hc
                      rcases List.mem_append.mp hc with h1 | h1
                      · exact hacc c h1
                      · rw [List.mem_singleton] at h1
                        subst h1
                        have hvne : List.takeWhile (fun ch => pyIsDigit ch || ch = '-')
                            (List.drop (consume_whitespace content pos) content) ≠ [] := by
                          assumption
                        exact goodChoice_of_digits hvne
                          (mem_takeWhile_prop (fun ch => pyIsDigit ch || ch = '-') _) _
                    · exact ih _ _ _ _ h hacc
                · exact ih _ _ _ _ h hacc

theorem pchoices_good {content : List Char} {pos : Nat} {d : List Diag} {out}
    (h : parse_choices content pos d = Except.ok out) : ∀ c ∈ out.1, GoodChoice c := by
  unfold parse_choices at h
  dsimp only at h
  split at h
  · exact Except.noConfusion h
  · split at h
    · rw [Except.ok.injEq] at h; subst h
      intro c hc
      exact absurd hc (List.not_mem_nil c)
    · exact pcl_good content _ _ _ _ _ h (fun c hc => absurd hc (List.not_mem_nil c))

theorem attach_good {cs : List Choice} {st : PSt} (hst : GoodSt st)
    (hcs : ∀ c ∈ cs, GoodChoice c) : GoodSt (attachChoices cs st) := by
  have hf : ∀ x : Attribute, GoodAttr x → GoodAttr { x with choices := some cs } := by
    intro x _ cs2 hcs2 c hc
    have he : cs = cs2 := Option.some.inj hcs2
    subst he
    exact hcs c hc
  unfold attachChoices
  split
  · exact hst
  · exact ⟨hst.1, modifyIdx_mem hf st.curAttrs _ hst.2⟩
  · refine ⟨modifyIdx_mem ?_ st.entities _ hst.1, hst.2⟩
    intro ent hent a ha
    exact modifyIdx_mem hf ent.attributes _ hent a ha

theorem finishAttr_good {name attr_type desc : String} {dflt : Option String} {pos : Nat}
    {diags : List Diag} {st : PSt} {out}
    (h : finishAttr name attr_type desc dflt pos diags st = Except.ok out)
    (hst : GoodSt st) :
    GoodSt out.2 ∧ ∀ a, out.1 = some a → a.choices = none := by
  unfold finishAttr at h
  rw [Except.ok.injEq] at h
  subst h
  refine ⟨hst, ?_⟩
  intro a ha
  have hx := Option.some.inj ha
  subst hx
  rfl

theorem ptail_good {content : List Char} {sp : Nat} {name : String} {st : PSt} {out}
    (h : parse_attribute_tail content sp name st = Except.ok out) (hst : GoodSt st) :
    GoodSt out.2 ∧ ∀ a, out.1 = some a → a.choices = none := by
  unfold parse_attribute_tail at h
  split at h
  · rw [Except.ok.injEq] at h; subst h
    exact ⟨hst, fun a ha => Option.noConfusion ha⟩
  · dsimp only at h
    split at h
    · split at h
      · split at h
        · exact Except.noConfusion h
        · split at h
          · exact finishAttr_good h hst
          · split at h
            · exact finishAttr_good h hst
            · exact finishAttr_good h hst
      · exact finishAttr_good h hst
    · exact finishAttr_good h hst

theorem pattr_good {content : List Char} {st : PSt} {out}
    (h : parse_attribute content st = Except.ok out) (hst : GoodSt st) :
    GoodSt out.2 ∧ ∀ a, out.1 = some a → a.choices = none := by
  unfold parse_attribute at h
  dsimp only at h
  split at h
  · rw [Except.ok.injEq] at h; subst h
    exact ⟨hst, fun a ha => Option.noConfusion ha⟩
  · split at h
    · exact Except.noConfusion h
    · split at h
      · rw [Except.ok.injEq] at h; subst h
        exact ⟨hst, fun a ha => Option.noConfusion ha⟩
      · split at h
        · rw [Except.ok.injEq] at h; subst h
          exact ⟨hst, fun a ha => Option.noConfusion ha⟩
        · split at h
          · split at h
            · exact Except.noConfusion h
            · split at h
              · split at h
                · exact Except.noConfusion h
                · rename_i cs p4 d4 heq
                  rw [Except.ok.injEq] at h; subst h
                  exact ⟨attach_good hst (pchoices_good heq),
                         fun a ha => Option.noConfusion ha⟩
              · exact ptail_good h hst
          · exact ptail_good h hst

theorem attrloop_good {content : List Char} :
    ∀ fuel st out, attr_loop content fuel st = Except.ok out → GoodSt st → GoodSt out := by
  intro fuel
  induction fuel with
  | zero =>
    intro st out h hst
    unfold attr_loop at h
    split at h
    · rw [Except.ok.injEq] at h; subst h; exact hst
    · exact Except.noConfusion h
  | succ n ih =>
    intro st out h hst
    unfold attr_loop at h
    split at h
    · rw [Except.ok.injEq] at h; subst h; exact hst
    · dsimp only at h
      split at h
      · rw [Except.ok.injEq] at h; subst h; exact hst
      · split at h
        · rw [Except.ok.injEq] at h; subst h; exact hst
        · split at h
          · exact ih _ _ h hst
          · split at h
            · exact ih _ _ h hst
            · split at h
              · exact Except.noConfusion h
              · rename_i a st2 heq
                refine ih _ _ h ?_
                have hg := pattr_good heq hst
                refine ⟨hg.1.1, ?_⟩
                intro x hx
                rcases List.mem_append.mp hx with h1 | h1
                · exact hg.1.2 x h1
                · rw [List.mem_singleton] at h1
                  subst h1
                  intro cs hcs
                  rw [hg.2 x rfl] at hcs
                  exact Option.noConfusion hcs
              · rename_i st2 heq
                exact ih _ _ h (pattr_good heq hst).1

theorem pentity_good {jd : String → Option JValue} {content : List Char} {st st4 : PSt}
    (h : parse_entity jd content st = Except.ok st4) (hst : GoodSt st) : GoodSt st4 := by
  unfold parse_entity at h
  dsimp only at h
  split at h
  · exact Except.noConfusion h
  · rename_i ps heqp
    split at h
    · exact Except.noConfusion h
    · rename_i c3 heqc
      have hempty : ∀ a : Attribute, a ∈ ([] : List Attribute) → GoodAttr a :=
        fun a ha => absurd ha (List.not_mem_nil a)
      by_cases hdesc : c3 = ':'
      · rw [if_pos hdesc] at h
        split at h
        · exact Except.noConfusion h
        · rename_i st3 heqA
          rw [Except.ok.injEq] at h; subst h
          have hst3 : GoodSt st3 := by
            split at heqA
            · split at heqA
              · exact Except.noConfusion heqA
              · rename_i st2 heqa
                have h2 := attrloop_good _ _ _ heqa ⟨hst.1, hempty⟩
                split at heqA
                · rw [Except.ok.injEq] at heqA; subst heqA; exact h2
                · rw [Except.ok.injEq] at heqA; subst heqA; exact h2
            · rw [Except.ok.injEq] at heqA; subst heqA
              exact ⟨hst.1, hempty⟩
          refine ⟨?_, hempty⟩
          intro e he
          rcases List.mem_append.mp he with h1 | h1
          · exact hst3.1 e h1
          · rw [List.mem_singleton] at h1
            subst h1
            intro a ha
            exact hst3.2 a ha
      · rw [if_neg hdesc] at h
        dsimp only at h
        split at h
        · exact Except.noConfusion h
        · rename_i st3 heqA
          rw [Except.ok.injEq] at h; subst h
          have hst3 : GoodSt st3 := by
            split at heqA
            · split at heqA
              · exact Except.noConfusion heqA
              · rename_i st2 heqa
                have h2 := attrloop_good _ _ _ heqa ⟨hst.1, hempty⟩
                split at heqA
                · rw [Except.ok.injEq] at heqA; subst heqA; exact h2
                · rw [Except.ok.injEq] at heqA; subst heqA; exact h2
            · rw [Except.ok.injEq] at heqA; subst heqA
              exact ⟨hst.1, hempty⟩
          refine ⟨?_, hempty⟩
          intro e he
          rcases List.mem_append.mp he with h1 | h1
          · exact hst3.1 e h1
          · rw [List.mem_singleton] at h1
            subst h1
            intro a ha
            exact hst3.2 a ha

theorem ploop_good {jd : String → Option JValue} {content : List Char} :
    ∀ fuel st out, parse_loop jd content fuel st = Except.ok out → GoodSt st → GoodSt out := by
  intro fuel
  induction fuel with
  | zero =>
    intro st out h hst
    unfold parse_loop at h
    split at h
    · rw [Except.ok.injEq] at h; subst h; exact hst
    · exact Except.noConfusion h
  | succ n ih =>
    intro st out h hst
    unfold parse_loop at h
    split at h
    · rw [Except.ok.injEq] at h; subst h; exact hst
    · dsimp only at h
      split at h
      · rw [Except.ok.injEq] at h; subst h; exact hst
      · split at h
        · exact ih _ _ h hst
        · split at h
          · split at h
            · exact Except.noConfusion h
            · rename_i st2 heq
              exact ih _ _ h (pentity_good heq hst)
          · exact ih _ _ h hst

/-- Claim C10: in every parsed document, every Choice in any attribute of
any entity has a nonempty value made only of digit characters and the
minus sign (choice entries whose key is not such a token are skipped by
parse_choices and never appended). -/
theorem c10_choice_values_numeric :
    ∀ (jd : String → Option JValue) (s : String) (es : List EntityClass) (ds : List Diag),
      parse jd s = Except.ok (es, ds) →
      ∀ e ∈ es, ∀ a ∈ e.attributes, ∀ cs, a.choices = some cs →
        ∀ c ∈ cs, c.value ≠ "" ∧ ∀ ch ∈ c.value.data, pyIsDigit ch = true ∨ ch = '-' := by
  intro jd s es ds h e he a ha cs hcs c hc
  unfold parse parseWith at h
  split at h
  · rename_i st heq
    rw [Except.ok.injEq, Prod.mk.injEq] at h
    obtain ⟨h1, _⟩ := h
    have hinit : GoodSt initSt :=
      ⟨fun x hx => absurd hx (List.not_mem_nil x), fun x hx => absurd hx (List.not_mem_nil x)⟩
    have hgood := ploop_good _ _ _ heq hinit
    have hee : e ∈ st.entities := by rw [h1]; exact he
    exact hgood.1 e hee a ha cs hcs c hc
  · exact Except.noConfusion h

/-- Input for the C10 witness: one entity with one attribute and a choices
block with a negative key. -/
def c10In : String :=
  "@PointClass = w : \"d\" [\nk(integer) : \"x\"\nchoices = [\n-1 : \"neg\"\n]\n]\n"

/-- The expected output for the C10 witness input. -/
def c10Es : List EntityClass :=
  [{ class_type := "pointclass", base := none, color := none, size := none,
     model := none, classname := "w", description := "d",
     attributes := [{ name := "k", type := "integer", description := "x", default := none,
                      choices := some [{ value := "-1", description := "neg" }] }] }]

set_option smartUnfolding false in
/-- Witness for claim C10 at a concrete document with a choices block. -/
theorem c10_witness :
    parse (fun _ => none) c10In = Except.ok (c10Es, []) ∧
    (∀ e ∈ c10Es, ∀ a ∈ e.attributes, ∀ cs, a.choices = some cs →
      ∀ c ∈ cs, c.value ≠ "" ∧ ∀ ch ∈ c.value.data, pyIsDigit ch = true ∨ ch = '-') :=
  ⟨rfl, c10_choice_values_numeric (fun _ => none) c10In c10Es [] rfl⟩

end BFG
